import Mathlib

/-!
# Trading-Analyzer: a shallow embedding of the data-to-metrics pipeline

This file embeds the core of the Trading-Analyzer repository in Lean 4 and
proves properties of the embedded functions.

Modelling conventions:
* Python floats are modelled as exact rationals (`ℚ`).
* A pandas/NumPy `NaN` cell is modelled as `Option.none`; a series cell that
  holds a number `q` is `some q`.  A Python value that is either `None` or a
  float is modelled as `Option (Option ℚ)`: the outer `none` is Python's
  `None`, `some none` is a float `NaN`, `some (some q)` is the number `q`.
* `datetime.now()` is modelled by threading an abstract clock tick `now : ℕ`
  into the functions that stamp timestamps.
* A price series (`self.data['Close']`) is modelled as the list of its close
  prices, `List ℚ`; a `None`/empty DataFrame is the empty list (the code
  treats both identically).
* A NumPy float division whose denominator is zero yields a non-finite value
  (`inf` or `nan`), which has no rational counterpart; where the source code
  can perform such a division, the result type `PyNum` has an explicit
  `nonfinite` constructor for it.
-/

/-- Python's built-in `round` to an integer: round-half-to-even
(banker's rounding), on exact rationals. -/
def pyRoundInt (q : ℚ) : ℤ :=
  let f : ℤ := ⌊q⌋
  let r : ℚ := q - f
  if r < 1/2 then f
  else if 1/2 < r then f + 1
  else if f % 2 = 0 then f else f + 1

/-- Python's `round(x, 2)`: round to two decimal places, half to even. -/
def round2 (q : ℚ) : ℚ := (pyRoundInt (q * 100) : ℚ) / 100

/-- Python's `str.upper()` (the repository only uses ASCII ticker symbols). -/
def pyUpper (s : String) : String := String.mk (s.data.map Char.toUpper)

/-! ## `src/models/stock.py` — class `Stock` -/

/-- The fields of `Stock`.  Every optional field starts as `None` and is
`none` here; `last_update` is a clock tick. -/
structure Stock where
  symbol : String
  name : String
  current_price : Option ℚ
  opening_price : Option ℚ
  highest_price : Option ℚ
  lowest_price : Option ℚ
  volume : Option ℤ
  last_update : Option ℕ
deriving DecidableEq

/-- `Stock.__init__`: upper-cases the symbol, leaves every price field
`None`. -/
def mkStock (symbol name : String) : Stock :=
  { symbol := pyUpper symbol, name := name, current_price := none,
    opening_price := none, highest_price := none, lowest_price := none,
    volume := none, last_update := none }

/-- `Stock.update_price`: `current_price` is overwritten unconditionally;
`opening_price`, `highest_price`, `lowest_price` and `volume` only when the
corresponding argument is not `None`; `last_update` is stamped with the
current clock tick. -/
def update_price (s : Stock) (new_price : ℚ) (opening high low : Option ℚ)
    (volume : Option ℤ) (now : ℕ) : Stock :=
  { s with
    current_price := some new_price,
    opening_price := match opening with | some o => some o | none => s.opening_price,
    highest_price := match high with | some h => some h | none => s.highest_price,
    lowest_price := match low with | some l => some l | none => s.lowest_price,
    volume := match volume with | some v => some v | none => s.volume,
    last_update := some now }

/-- `Stock.get_variation`: `None` when either price is missing or the
opening price is zero, otherwise the percent change since the opening,
rounded to two decimals. -/
def get_variation (s : Stock) : Option ℚ :=
  match s.current_price, s.opening_price with
  | some c, some o => if o = 0 then none else some (round2 ((c - o) / o * 100))
  | _, _ => none

/-! ## `src/models/portfolio.py` — class `Portfolio` -/

/-- The fields of `Portfolio`: a display name and the ordered list of held
stocks. -/
structure Portfolio where
  name : String
  stocks : List Stock
deriving DecidableEq

/-- `Portfolio.get_stock`: first stock whose (upper-case) symbol equals the
upper-cased query, or `None`. -/
def get_stock (p : Portfolio) (symbol : String) : Option Stock :=
  p.stocks.find? (fun st => st.symbol == pyUpper symbol)

/-- `Portfolio.add_stock`: refuses (returning `False` and leaving the list
untouched) when `get_stock` already finds the symbol, otherwise appends and
returns `True`.  The mutation is modelled by returning the new portfolio. -/
def add_stock (p : Portfolio) (stock : Stock) : Bool × Portfolio :=
  if (get_stock p stock.symbol).isSome then (false, p)
  else (true, { p with stocks := p.stocks ++ [stock] })

/-- `Portfolio.get_total_value`: sum of the defined current prices, rounded
to two decimals. -/
def get_total_value (p : Portfolio) : ℚ :=
  round2 (p.stocks.filterMap (fun st => st.current_price)).sum

/-- One iteration of `Portfolio.get_best_performer`'s loop.  The running
state is `none` while `best_stock is None` (the `-inf` start: any defined
variation beats it), and `some (best_stock, best_variation)` afterwards;
the update fires only on a strictly greater variation. -/
def bestStep (acc : Option (Stock × ℚ)) (stock : Stock) : Option (Stock × ℚ) :=
  match get_variation stock with
  | none => acc
  | some v =>
    match acc with
    | none => some (stock, v)
    | some (b, bv) => if bv < v then some (stock, v) else some (b, bv)

/-- `Portfolio.get_best_performer`: `None` on an empty portfolio, else the
result of the strict-greater scan (which is also `None` when no stock has a
defined variation). -/
def get_best_performer (p : Portfolio) : Option Stock :=
  if p.stocks.isEmpty then none
  else (p.stocks.foldl bestStep none).map Prod.fst

/-- One iteration of `Portfolio.get_worst_performer`'s loop: the `+inf`
start and a strictly-smaller update. -/
def worstStep (acc : Option (Stock × ℚ)) (stock : Stock) : Option (Stock × ℚ) :=
  match get_variation stock with
  | none => acc
  | some v =>
    match acc with
    | none => some (stock, v)
    | some (b, bv) => if v < bv then some (stock, v) else some (b, bv)

/-- `Portfolio.get_worst_performer`. -/
def get_worst_performer (p : Portfolio) : Option Stock :=
  if p.stocks.isEmpty then none
  else (p.stocks.foldl worstStep none).map Prod.fst

/-- `Portfolio.get_average_variation`: `None` on an empty portfolio or when
no stock has a defined variation, else the mean of the defined (already
rounded) variations, rounded to two decimals. -/
def get_average_variation (p : Portfolio) : Option ℚ :=
  if p.stocks.isEmpty then none
  else
    let variations := p.stocks.filterMap get_variation
    if variations.isEmpty then none
    else some (round2 (variations.sum / variations.length))

/-! ## `src/analysis/indicators.py` — class `TechnicalIndicators` -/

/-- `self.data['Close'].diff()`: a leading `NaN` then the consecutive
differences. -/
def diffsL (closes : List ℚ) : List (Option ℚ) :=
  none :: (closes.zip closes.tail).map (fun p => some (p.2 - p.1))

/-- `delta.where(delta > 0, 0)`: keep a delta where it is positive,
otherwise `0`.  A `NaN` delta compares false and is replaced by `0`. -/
def gainsL (closes : List ℚ) : List ℚ :=
  (diffsL closes).map (fun d => match d with
    | some q => if 0 < q then q else 0
    | none => 0)

/-- `-delta.where(delta < 0, 0)`: keep a delta where it is negative
(`NaN` compares false and becomes `0`), then negate. -/
def lossesL (closes : List ℚ) : List ℚ :=
  (diffsL closes).map (fun d => match d with
    | some q => if q < 0 then -q else 0
    | none => 0)

/-- `xs.rolling(window=p).mean().iloc[-1]`: the mean of the last `p`
entries when the series has at least `p` entries (and `p ≥ 1`), `NaN`
otherwise (`min_periods` defaults to the window size). -/
def rollingMeanLast (p : ℕ) (xs : List ℚ) : Option ℚ :=
  if 1 ≤ p ∧ p ≤ xs.length then some ((xs.drop (xs.length - p)).sum / p) else none

/-- `avg_gain` of `calculate_rsi`. -/
def avg_gain_of (closes : List ℚ) (period : ℕ) : Option ℚ :=
  rollingMeanLast period (gainsL closes)

/-- `avg_loss` of `calculate_rsi`. -/
def avg_loss_of (closes : List ℚ) (period : ℕ) : Option ℚ :=
  rollingMeanLast period (lossesL closes)

/-- `TechnicalIndicators.calculate_rsi`: Python `None` (outer `none`) when
the data is missing or empty.  Otherwise: when `avg_loss == 0`, RSI is the
number `100`; a `NaN` average loss fails that comparison and the division
`avg_gain / avg_loss` then propagates `NaN` through the RSI formula
(`some none`); a nonzero average loss gives `100 - 100/(1 + rs)`. -/
def calculate_rsi (closes : List ℚ) (period : ℕ) : Option (Option ℚ) :=
  if closes.isEmpty then none
  else
    some (match avg_loss_of closes period with
      | none => none
      | some al =>
        if al = 0 then some 100
        else match avg_gain_of closes period with
          | none => none
          | some ag => some (100 - 100 / (1 + ag / al)))

/-- Python `x < t` where `x` may be `NaN`: any comparison with `NaN` is
false. -/
def py_lt (x : Option ℚ) (t : ℚ) : Bool :=
  match x with
  | none => false
  | some q => decide (q < t)

/-- Python `x > t` where `x` may be `NaN`. -/
def py_gt (x : Option ℚ) (t : ℚ) : Bool :=
  match x with
  | none => false
  | some q => decide (t < q)

/-- `TechnicalIndicators.get_simple_signal`: `"INCONNU"` when
`calculate_rsi` returned `None`, else the 30/70 threshold test on the RSI
value (a `NaN` RSI fails both comparisons and falls to `"ATTENDRE"`). -/
def get_simple_signal (closes : List ℚ) : String :=
  match calculate_rsi closes 14 with
  | none => "INCONNU"
  | some rsi =>
    if py_lt rsi 30 then "ACHETER"
    else if py_gt rsi 70 then "VENDRE"
    else "ATTENDRE"

/-- A NumPy float that is either an ordinary number or the non-finite
result (`inf`/`-inf`/`nan`) of a division by zero. -/
inductive PyNum where
  | num (q : ℚ)
  | nonfinite
deriving DecidableEq

/-- The dictionary returned by
`TechnicalIndicators.calculate_price_change`. -/
structure PriceChange where
  prix_debut : ℚ
  prix_fin : ℚ
  variation : ℚ
  variation_pct : PyNum
deriving DecidableEq

/-- `TechnicalIndicators.calculate_price_change`: the empty dictionary
(`none`) on missing/empty data, else first close, last close, their
difference, and `(change / first_price) * 100` — the division carries no
zero guard, so a zero first price makes the percentage non-finite. -/
def calculate_price_change (closes : List ℚ) : Option PriceChange :=
  match closes with
  | [] => none
  | first :: rest =>
    let last := (first :: rest).getLast (by simp)
    some { prix_debut := first, prix_fin := last, variation := last - first,
           variation_pct := if first = 0 then PyNum.nonfinite
                            else PyNum.num ((last - first) / first * 100) }

/-! ## `src/analysis/statistics.py` — class `Analyzer` -/

/-- `Analyzer.calculate_daily_return`: `None` on missing/empty data, else
`Close.pct_change() * 100` — a leading `NaN` then the percent changes.
(A zero previous close would make the true quotient non-finite, which `ℚ`
cannot express; the theorems about this function therefore assume nonzero
closes.) -/
def calculate_daily_return (closes : List ℚ) : Option (List (Option ℚ)) :=
  if closes.isEmpty then none
  else some (none :: (closes.zip closes.tail).map (fun p => some ((p.2 - p.1) / p.1 * 100)))

/-- The square of `Series.std()` (pandas sample standard deviation:
`skipna=True`, `ddof=1`): `NaN` cells are dropped; with fewer than two
remaining values the result is `NaN`, else the sample variance.  The
square is modelled because `ℚ` has no square root; definedness and
equality of standard deviations correspond exactly to definedness and
equality of their squares. -/
def pandasSampleVar (xs : List (Option ℚ)) : Option ℚ :=
  let vals := xs.filterMap id
  if vals.length < 2 then none
  else
    let m := vals.sum / vals.length
    some ((vals.map (fun x => (x - m) ^ 2)).sum / ((vals.length : ℚ) - 1))

/-- The square of `Analyzer.calculate_volatility`: Python `None` (outer
`none`) only when `calculate_daily_return` returned `None`, else
`returns.std()` squared (which is `NaN`, `some none`, when fewer than two
returns are defined). -/
def calculate_volatility_sq (closes : List ℚ) : Option (Option ℚ) :=
  match calculate_daily_return closes with
  | none => none
  | some rets => some (pandasSampleVar rets)

/-! ## `src/api/data_fetcher.py` and `src/api/async_fetcher.py`

The external market-data source (`yfinance` inside
`DataFetcher.fetch_current_price`) is modelled as a fixed function
`src : String → Option QuoteData`: `none` is an invalid symbol, an
unavailable current price, or any exception during the fetch (the source
catches every exception and returns `None`). -/

/-- The dictionary `DataFetcher.fetch_current_price` builds on success:
the upper-cased symbol, the display name, a present current price and the
possibly missing remaining fields. -/
structure QuoteData where
  symbol : String
  name : String
  current_price : ℚ
  open_price : Option ℚ
  high : Option ℚ
  low : Option ℚ
  volume : Option ℤ
deriving DecidableEq

/-- `DataFetcher.create_stock_from_api`: `None` when the source fails,
else a fresh `Stock` filled by `update_price`. -/
def create_stock_from_api (src : String → Option QuoteData) (now : ℕ)
    (symbol : String) : Option Stock :=
  match src symbol with
  | none => none
  | some d =>
    some (update_price (mkStock d.symbol d.name) d.current_price
      d.open_price d.high d.low d.volume now)

/-- `DataFetcher.fetch_multiple_stocks_sync`: one symbol after the other,
keeping the successes in input order and skipping the failures. -/
def fetch_multiple_stocks_sync (src : String → Option QuoteData) (now : ℕ)
    (symbols : List String) : List Stock :=
  symbols.filterMap (create_stock_from_api src now)

/-- `AsyncFetcher.fetch_multiple_stocks`: one task per symbol;
`asyncio.gather` returns the completed results in task order regardless of
the scheduler's interleaving (only timing varies), and the comprehension
keeps the results that are actual `Stock`s (dropping `None`s and
exceptions). -/
def fetch_multiple_stocks_async (src : String → Option QuoteData) (now : ℕ)
    (symbols : List String) : List Stock :=
  (symbols.map (fun s => create_stock_from_api src now s)).filterMap id

/-! ## Reference definitions taken from the spec's words

These follow the specification's formulas (no rounding, mathematical
sample variance); the theorems compare the code's functions against
them. -/

/-- The spec's `variation(quote)`: `(current_price - opening_price) /
opening_price * 100`, undefined if a price is missing or the opening is
zero — stated without the code's rounding. -/
def specVariation (s : Stock) : Option ℚ :=
  match s.current_price, s.opening_price with
  | some c, some o => if o = 0 then none else some ((c - o) / o * 100)
  | _, _ => none

/-- The spec's `total_value()`: plain sum of the defined current prices. -/
def specTotalValue (p : Portfolio) : ℚ :=
  (p.stocks.filterMap (fun st => st.current_price)).sum

/-- The spec's `daily_return(series)`: for each bar after the first,
`(close[t] - close[t-1]) / close[t-1] * 100`. -/
def specDailyReturns (closes : List ℚ) : List ℚ :=
  (closes.zip closes.tail).map (fun p => (p.2 - p.1) / p.1 * 100)

/-- The square of the sample standard deviation of a list of values
(undefined on fewer than two values). -/
def specSampleVar (xs : List ℚ) : Option ℚ :=
  if xs.length < 2 then none
  else
    let m := xs.sum / xs.length
    some ((xs.map (fun x => (x - m) ^ 2)).sum / ((xs.length : ℚ) - 1))

/-! ## Helper lemmas -/

lemma diffsL_length (c : ℚ) (rest : List ℚ) :
    (diffsL (c :: rest)).length = rest.length + 1 := by
  simp [diffsL]

lemma gainsL_length (c : ℚ) (rest : List ℚ) :
    (gainsL (c :: rest)).length = rest.length + 1 := by
  simp [gainsL, diffsL_length]

lemma lossesL_length (c : ℚ) (rest : List ℚ) :
    (lossesL (c :: rest)).length = rest.length + 1 := by
  simp [lossesL, diffsL_length]

lemma round2_close (q : ℚ) : |round2 q - q| ≤ 1/200 := by
  unfold round2 pyRoundInt
  set f : ℤ := ⌊q * 100⌋ with hf
  have h0 : (0:ℚ) ≤ q * 100 - f := by
    rw [hf]; linarith [Int.floor_le (q * 100)]
  have h1 : q * 100 - f < 1 := by
    rw [hf]; linarith [Int.lt_floor_add_one (q * 100)]
  by_cases hlt : q * 100 - f < 1/2
  · simp only [hlt, if_true]
    rw [abs_le]
    constructor <;> linarith
  · by_cases hgt : (1:ℚ)/2 < q * 100 - f
    · simp only [hlt, hgt, if_false, if_true]
      rw [abs_le]
      constructor <;> push_cast <;> linarith
    · have heq : q * 100 - f = 1/2 := by linarith
      by_cases hev : f % 2 = 0
      · simp only [hlt, hgt, hev, if_false, if_true]
        rw [abs_le]
        constructor <;> linarith
      · simp only [hlt, hgt, hev, if_false]
        rw [abs_le]
        constructor <;> push_cast <;> linarith

/-! ## C1 -/

/-- C1: for every non-empty price series whose trailing 14-bar average
loss is exactly 0 (including the all-flat series, where the average gain
is 0 as well), `calculate_rsi` with period 14 returns the number 100. -/
theorem rsi_returns_100_when_avg_loss_zero (closes : List ℚ) (hne : closes ≠ [])
    (h0 : avg_loss_of closes 14 = some 0) :
    calculate_rsi closes 14 = some (some 100) := by
  unfold calculate_rsi
  rw [if_neg (by simpa using hne), h0]
  simp

/-- C1 witness: the all-flat 14-bar series has zero average loss and RSI
exactly 100. -/
theorem rsi_returns_100_when_avg_loss_zero_witness :
    calculate_rsi [5,5,5,5,5,5,5,5,5,5,5,5,5,5] 14 = some (some 100) :=
  rsi_returns_100_when_avg_loss_zero [5,5,5,5,5,5,5,5,5,5,5,5,5,5]
    (by simp)
    (by norm_num [avg_loss_of, rollingMeanLast, lossesL, diffsL])

/-! ## C2 -/

/-- C2 counterexample: the 14-bar series 1..14 is non-empty and has fewer
than `period + 1 = 15` bars, yet `calculate_rsi` produces the number 100
(not an absent value): the `diff` leading `NaN` is coerced to a zero
gain/loss by the `where`-fill, so `period` bars already fill the rolling
window.  And the 2-bar series yields a `NaN` float (`some none`), not
Python `None`. -/
theorem rsi_fourteen_bars_cex :
    calculate_rsi [1,2,3,4,5,6,7,8,9,10,11,12,13,14] 14 = some (some 100) ∧
    ([1,2,3,4,5,6,7,8,9,10,11,12,13,14] : List ℚ).length < 14 + 1 ∧
    ([1,2,3,4,5,6,7,8,9,10,11,12,13,14] : List ℚ) ≠ [] ∧
    calculate_rsi [1,2] 14 = some none := by
  refine ⟨?_, by norm_num, by simp, ?_⟩
  · norm_num [calculate_rsi, avg_loss_of, avg_gain_of, rollingMeanLast, lossesL, gainsL, diffsL]
  · norm_num [calculate_rsi, avg_loss_of, avg_gain_of, rollingMeanLast, lossesL, gainsL, diffsL]

/-- C2 (amended): `calculate_rsi` returns Python `None` on an empty
series; on a non-empty series with fewer than `period` bars it returns a
float `NaN` (`some none`), not `None`; and it produces a numeric RSI as
soon as the series has at least `period` bars (not `period + 1`). -/
theorem rsi_window_definedness (closes : List ℚ) (period : ℕ) (hp : 1 ≤ period) :
    (closes = [] → calculate_rsi closes period = none) ∧
    (closes ≠ [] → closes.length < period → calculate_rsi closes period = some none) ∧
    (closes ≠ [] → period ≤ closes.length →
      ∃ q, calculate_rsi closes period = some (some q)) := by
  refine ⟨?_, ?_, ?_⟩
  · intro h; subst h; rfl
  · intro hne hlt
    obtain ⟨c, rest, rfl⟩ := List.exists_cons_of_ne_nil hne
    have hal : avg_loss_of (c :: rest) period = none := by
      unfold avg_loss_of rollingMeanLast
      rw [if_neg]
      rw [lossesL_length]
      simp only [List.length_cons] at hlt
      omega
    unfold calculate_rsi
    rw [if_neg (by simp), hal]
  · intro hne hle
    obtain ⟨c, rest, rfl⟩ := List.exists_cons_of_ne_nil hne
    simp only [List.length_cons] at hle
    obtain ⟨al, hal⟩ : ∃ al, avg_loss_of (c :: rest) period = some al := by
      unfold avg_loss_of rollingMeanLast
      rw [if_pos]
      · exact ⟨_, rfl⟩
      · rw [lossesL_length]; omega
    obtain ⟨ag, hag⟩ : ∃ ag, avg_gain_of (c :: rest) period = some ag := by
      unfold avg_gain_of rollingMeanLast
      rw [if_pos]
      · exact ⟨_, rfl⟩
      · rw [gainsL_length]; omega
    unfold calculate_rsi
    rw [if_neg (by simp), hal, hag]
    by_cases h0 : al = 0
    · exact ⟨100, by simp [h0]⟩
    · exact ⟨100 - 100 / (1 + ag / al), by simp [h0]⟩

/-- C2 witness: the 2-bar series is non-empty, shorter than the 14-bar
window, and gets a `NaN` RSI. -/
theorem rsi_window_definedness_witness :
    calculate_rsi [(1:ℚ), 2] 14 = some none :=
  (rsi_window_definedness [(1:ℚ), 2] 14 (by norm_num)).2.1 (by simp) (by norm_num)

/-! ## C3 -/

/-- C3 counterexample: on the 2-bar series the RSI is a float `NaN`
(undefined value), yet `get_simple_signal` answers `"ATTENDRE"` (HOLD),
not `"INCONNU"` (UNKNOWN): `NaN < 30` and `NaN > 70` are both false in
Python, so the HOLD branch fires. -/
theorem signal_nan_gives_hold_cex :
    get_simple_signal [(1:ℚ), 2] = "ATTENDRE" ∧
    calculate_rsi [(1:ℚ), 2] 14 = some none ∧
    "ATTENDRE" ≠ "INCONNU" := by
  have h : calculate_rsi [(1:ℚ), 2] 14 = some none := by
    norm_num [calculate_rsi, avg_loss_of, avg_gain_of, rollingMeanLast, lossesL, gainsL, diffsL]
  refine ⟨?_, h, by decide⟩
  unfold get_simple_signal
  rw [h]
  rfl

/-- C3 (amended): `get_simple_signal` answers `"INCONNU"` exactly when the
series is empty (the only case where `calculate_rsi` returns `None`); a
`NaN` RSI — a non-empty series shorter than the 14-bar window — falls to
`"ATTENDRE"`; a numeric RSI follows the 30/70 thresholds with
`"ATTENDRE"` for the inclusive middle band. -/
theorem signal_thresholds (closes : List ℚ) :
    (calculate_rsi closes 14 = none ↔ closes = []) ∧
    (closes = [] → get_simple_signal closes = "INCONNU") ∧
    (calculate_rsi closes 14 = some none → get_simple_signal closes = "ATTENDRE") ∧
    (∀ q, calculate_rsi closes 14 = some (some q) →
      get_simple_signal closes =
        if q < 30 then "ACHETER" else if 70 < q then "VENDRE" else "ATTENDRE") := by
  refine ⟨?_, ?_, ?_, ?_⟩
  · constructor
    · intro h
      by_contra hne
      rw [show calculate_rsi closes 14 = some (match avg_loss_of closes 14 with
            | none => none
            | some al => if al = 0 then some 100
              else match avg_gain_of closes 14 with
                | none => none
                | some ag => some (100 - 100 / (1 + ag / al)))
          from by unfold calculate_rsi; rw [if_neg (by simpa using hne)]] at h
      exact Option.noConfusion h
    · intro h; subst h; rfl
  · intro h; subst h; rfl
  · intro h
    unfold get_simple_signal
    rw [h]
    rfl
  · intro q h
    unfold get_simple_signal
    rw [h]
    by_cases h30 : q < 30
    · simp [py_lt, h30]
    · by_cases h70 : 70 < q
      · simp [py_lt, py_gt, h30, h70]
      · simp [py_lt, py_gt, h30, h70]

/-! ## C9 -/

/-- C9: `update_price` sets `current_price` unconditionally, overwrites
each of the four optional fields exactly when the corresponding argument
is non-null (keeping the previous value otherwise), stamps `last_update`
with the current time, and changes no other field (`symbol`, `name`). -/
theorem update_price_frame (s : Stock) (np : ℚ) (o h l : Option ℚ)
    (v : Option ℤ) (now : ℕ) :
    (update_price s np o h l v now).current_price = some np ∧
    (update_price s np o h l v now).last_update = some now ∧
    (update_price s np o h l v now).symbol = s.symbol ∧
    (update_price s np o h l v now).name = s.name ∧
    (∀ x, o = some x → (update_price s np o h l v now).opening_price = some x) ∧
    (o = none → (update_price s np o h l v now).opening_price = s.opening_price) ∧
    (∀ x, h = some x → (update_price s np o h l v now).highest_price = some x) ∧
    (h = none → (update_price s np o h l v now).highest_price = s.highest_price) ∧
    (∀ x, l = some x → (update_price s np o h l v now).lowest_price = some x) ∧
    (l = none → (update_price s np o h l v now).lowest_price = s.lowest_price) ∧
    (∀ x, v = some x → (update_price s np o h l v now).volume = some x) ∧
    (v = none → (update_price s np o h l v now).volume = s.volume) := by
  cases o <;> cases h <;> cases l <;> cases v <;> simp [update_price]

/-! ## C10 -/

/-- C10: `get_variation` is the exact spec variation rounded to two
decimals, `get_total_value` the rounded sum of defined current prices,
`get_average_variation` (when defined) the rounded mean of the
already-rounded defined variations — and the two-decimal rounding moves
any value by at most half a hundredth. -/
theorem rounding_of_results :
    (∀ s : Stock, get_variation s = (specVariation s).map round2) ∧
    (∀ p : Portfolio, get_total_value p = round2 (specTotalValue p)) ∧
    (∀ p : Portfolio, ∀ r, get_average_variation p = some r →
      r = round2 ((p.stocks.filterMap get_variation).sum /
        (p.stocks.filterMap get_variation).length)) ∧
    (∀ q : ℚ, |round2 q - q| ≤ 1/200) := by
  refine ⟨?_, ?_, ?_, round2_close⟩
  · intro s
    unfold get_variation specVariation
    cases s.current_price <;> cases s.opening_price <;> simp
    rename_i c o
    by_cases h : o = 0 <;> simp [h]
  · intro p
    rfl
  · intro p r hr
    unfold get_average_variation at hr
    by_cases he : p.stocks.isEmpty
    · rw [if_pos he] at hr; exact absurd hr (by simp)
    · rw [if_neg he] at hr
      by_cases hv : (p.stocks.filterMap get_variation).isEmpty
      · simp only [hv, if_true] at hr; exact absurd hr (by simp)
      · simp only [hv, if_false] at hr
        exact (Option.some_injective _ hr).symm

/-! ## C7 -/

/-- C7 counterexample: on the series whose first close is 0 the
percent-change division of `calculate_price_change` is reached with a
zero denominator, and the result is a non-finite float, not a defined
sentinel and not an absent value — the division carries no guard. -/
theorem price_change_zero_first_close_cex :
    calculate_price_change [(0:ℚ), 20] =
      some { prix_debut := 0, prix_fin := 20, variation := 20,
             variation_pct := PyNum.nonfinite } := by
  norm_num [calculate_price_change]

/-- C7 (amended): the variation and RSI divisions are guarded — a zero
opening price makes `get_variation` return `None`, and a zero average
loss short-circuits `calculate_rsi` to 100 before any division — but the
percent change of `calculate_price_change` is not: a non-empty series
whose first close is 0 produces a non-finite float percentage (the host
runtime yields an IEEE infinity or NaN rather than raising). -/
theorem division_guards :
    (∀ s : Stock, s.opening_price = some 0 → get_variation s = none) ∧
    (∀ closes : List ℚ, ∀ period : ℕ, closes ≠ [] →
      avg_loss_of closes period = some 0 →
      calculate_rsi closes period = some (some 100)) ∧
    (∀ c : ℚ, ∀ rest : List ℚ, c = 0 →
      ∃ r, calculate_price_change (c :: rest) = some r ∧
        r.variation_pct = PyNum.nonfinite) := by
  refine ⟨?_, ?_, ?_⟩
  · intro s h
    unfold get_variation
    rw [h]
    cases s.current_price <;> simp
  · intro closes period hne h0
    unfold calculate_rsi
    rw [if_neg (by simpa using hne), h0]
    simp
  · intro c rest hc
    subst hc
    exact ⟨_, rfl, by simp [calculate_price_change]⟩

/-! ## C4 -/

/-- C4: over the same fixed backing source, the sequential batch fetch and
the concurrent batch fetch return the very same list of stocks (so in
particular the same set of successfully fetched quotes), and a stock is in
the result exactly when its symbol's individual fetch succeeded — a
failing symbol is skipped without aborting the batch in either strategy. -/
theorem fetch_sync_async_agree (src : String → Option QuoteData) (now : ℕ)
    (symbols : List String) :
    fetch_multiple_stocks_async src now symbols =
      fetch_multiple_stocks_sync src now symbols ∧
    (∀ st : Stock, st ∈ fetch_multiple_stocks_sync src now symbols ↔
      ∃ sym, sym ∈ symbols ∧ create_stock_from_api src now sym = some st) := by
  constructor
  · unfold fetch_multiple_stocks_async fetch_multiple_stocks_sync
    rw [List.filterMap_map]
    rfl
  · intro st
    unfold fetch_multiple_stocks_sync
    exact List.mem_filterMap

/-! ## C8 -/

lemma calculate_daily_return_cons (c : ℚ) (rest : List ℚ) :
    calculate_daily_return (c :: rest) =
      some (none :: (specDailyReturns (c :: rest)).map some) := by
  simp [calculate_daily_return, specDailyReturns]

lemma specDailyReturns_length (c : ℚ) (rest : List ℚ) :
    (specDailyReturns (c :: rest)).length = rest.length := by
  simp [specDailyReturns]

lemma pandasSampleVar_on (l : List ℚ) :
    pandasSampleVar (none :: l.map some) = specSampleVar l := by
  have hv : (none :: l.map some).filterMap id = l := by simp
  unfold pandasSampleVar specSampleVar
  rw [hv]

/-- C8 counterexample: the one-bar series has fewer than 2 bars, but
`calculate_volatility` does not return the explicit no-value `None`: the
daily-return series is `[NaN]`, and the standard deviation of zero
non-NaN observations is the float `NaN` (`some none`). -/
theorem volatility_one_bar_cex :
    calculate_volatility_sq [(100:ℚ)] = some none ∧
    calculate_volatility_sq [(100:ℚ)] ≠ none ∧
    ([(100:ℚ)] : List ℚ).length < 2 := by
  refine ⟨?_, ?_, by norm_num⟩ <;>
    simp [calculate_volatility_sq, calculate_daily_return, pandasSampleVar]

/-- C8 (amended): on series whose closes are all nonzero (so that no
daily return degenerates), `calculate_volatility` returns Python `None`
exactly on the empty series; a non-empty series with fewer than 3 bars
leaves at most one defined daily return and the sample standard deviation
(`ddof=1`) is the float `NaN`; and from 3 bars on the result is exactly
the sample standard deviation of the spec's daily-return sequence
(equality stated between the squares, which determine the nonnegative
standard deviations). -/
theorem volatility_sample_std (closes : List ℚ) (hz : ∀ c ∈ closes, c ≠ 0) :
    (closes = [] → calculate_volatility_sq closes = none) ∧
    (closes ≠ [] → closes.length < 3 → calculate_volatility_sq closes = some none) ∧
    (3 ≤ closes.length →
      calculate_volatility_sq closes = some (specSampleVar (specDailyReturns closes)) ∧
      specSampleVar (specDailyReturns closes) ≠ none) := by
  refine ⟨?_, ?_, ?_⟩
  · intro h; subst h; rfl
  · intro hne hlt
    obtain ⟨c, rest, rfl⟩ := List.exists_cons_of_ne_nil hne
    unfold calculate_volatility_sq
    rw [calculate_daily_return_cons]
    show some (pandasSampleVar (none :: (specDailyReturns (c :: rest)).map some)) = some none
    rw [pandasSampleVar_on]
    unfold specSampleVar
    rw [specDailyReturns_length, if_pos]
    simp only [List.length_cons] at hlt
    omega
  · intro h3
    have hne : closes ≠ [] := by
      intro h; subst h; simp at h3
    obtain ⟨c, rest, rfl⟩ := List.exists_cons_of_ne_nil hne
    simp only [List.length_cons] at h3
    constructor
    · unfold calculate_volatility_sq
      rw [calculate_daily_return_cons]
      show some (pandasSampleVar (none :: (specDailyReturns (c :: rest)).map some)) = _
      rw [pandasSampleVar_on]
    · unfold specSampleVar
      rw [specDailyReturns_length, if_neg (by omega)]
      simp

/-- C8 witness: a concrete 3-bar series with nonzero closes, where the
squared volatility equals the sample variance of the two daily
returns. -/
theorem volatility_sample_std_witness :
    calculate_volatility_sq [(1:ℚ), 2, 3] =
      some (specSampleVar (specDailyReturns [(1:ℚ), 2, 3])) :=
  ((volatility_sample_std [(1:ℚ), 2, 3] (by norm_num)).2.2 (by norm_num)).1

/-! ## C6 -/

/-- C6: on a portfolio whose stored symbols are upper-case (as every
constructor-built `Stock`'s symbol is), `add_stock` returns `False` and
leaves the stock list unchanged when some held quote's symbol equals the
new quote's symbol case-insensitively, and otherwise appends the new
quote at the end and returns `True`. -/
theorem add_stock_duplicate_rejected (p : Portfolio) (s : Stock)
    (hinv : ∀ t ∈ p.stocks, pyUpper t.symbol = t.symbol) :
    ((∃ t ∈ p.stocks, pyUpper t.symbol = pyUpper s.symbol) →
      add_stock p s = (false, p)) ∧
    ((∀ t ∈ p.stocks, pyUpper t.symbol ≠ pyUpper s.symbol) →
      add_stock p s = (true, { p with stocks := p.stocks ++ [s] })) := by
  have hfind : (get_stock p s.symbol).isSome ↔
      ∃ t ∈ p.stocks, pyUpper t.symbol = pyUpper s.symbol := by
    unfold get_stock
    rw [List.find?_isSome]
    constructor
    · rintro ⟨t, ht, hbeq⟩
      exact ⟨t, ht, by rw [hinv t ht]; exact eq_of_beq hbeq⟩
    · rintro ⟨t, ht, heq⟩
      exact ⟨t, ht, beq_iff_eq.mpr (by rw [← hinv t ht]; exact heq)⟩
  constructor
  · intro hex
    unfold add_stock
    rw [if_pos (hfind.mpr hex)]
  · intro hnot
    unfold add_stock
    rw [if_neg]
    intro hsome
    obtain ⟨t, ht, heq⟩ := hfind.mp hsome
    exact hnot t ht heq

/-- C6 witness: adding `"AAPL"` to a portfolio that already holds the
stock built from `"aapl"` is rejected without mutation. -/
theorem add_stock_duplicate_rejected_witness :
    add_stock { name := "P", stocks := [mkStock "aapl" "Apple"] }
        (mkStock "AAPL" "Apple Inc") =
      (false, { name := "P", stocks := [mkStock "aapl" "Apple"] }) :=
  (add_stock_duplicate_rejected
      { name := "P", stocks := [mkStock "aapl" "Apple"] }
      (mkStock "AAPL" "Apple Inc")
      (by intro t ht; simp [mkStock, pyUpper] at ht ⊢; rw [ht]; rfl)).1
    ⟨mkStock "aapl" "Apple", by simp, by simp [mkStock, pyUpper]⟩

/-! ## C5 -/

lemma getElem?_append_lt {α : Type} (l : List α) (a : α) (j : ℕ) (h : j < l.length) :
    (l ++ [a])[j]? = l[j]? := by
  simp [List.getElem?_append, h]

lemma bestFold_spec (l : List Stock) :
    (l.foldl bestStep none = none → ∀ s ∈ l, get_variation s = none) ∧
    (∀ b v, l.foldl bestStep none = some (b, v) →
      get_variation b = some v ∧
      (∀ s ∈ l, ∀ w, get_variation s = some w → w ≤ v) ∧
      ∃ i : ℕ, l[i]? = some b ∧
        ∀ j : ℕ, j < i → ∀ s w, l[j]? = some s → get_variation s = some w → w < v) := by
  induction l using List.reverseRecOn with
  | nil =>
    refine ⟨fun _ s hs => absurd hs (List.not_mem_nil s), fun b v h => ?_⟩
    simp at h
  | append_singleton l a ih =>
    obtain ⟨ihn, ihs⟩ := ih
    rw [List.foldl_append]
    simp only [List.foldl_cons, List.foldl_nil]
    cases hfl : l.foldl bestStep none with
    | none =>
      have hall := ihn hfl
      cases hva : get_variation a with
      | none =>
        simp only [bestStep, hva]
        refine ⟨fun _ s hs => ?_, fun b v h => ?_⟩
        · rcases List.mem_append.mp hs with h | h
          · exact hall s h
          · rw [List.mem_singleton.mp h]; exact hva
        · exact absurd h (by simp)
      | some v0 =>
        simp only [bestStep, hva]
        refine ⟨fun h => absurd h (by simp), fun b v h => ?_⟩
        rw [Option.some_inj, Prod.mk.injEq] at h
        obtain ⟨hb, hv⟩ := h
        subst hb; subst hv
        refine ⟨hva, fun s hs w hw => ?_, l.length, ?_, fun j hj s w hjs hw => ?_⟩
        · rcases List.mem_append.mp hs with h | h
          · exact absurd hw (by rw [hall s h]; simp)
          · rw [List.mem_singleton.mp h] at hw
            rw [hva] at hw
            rw [Option.some_inj] at hw
            exact le_of_eq hw.symm
        · exact List.getElem?_concat_length l a
        · rw [getElem?_append_lt _ _ _ hj] at hjs
          exact absurd hw (by rw [hall s (List.getElem?_mem hjs)]; simp)
    | some pr =>
      obtain ⟨bb, bv⟩ := pr
      obtain ⟨hvb, hub, i, hi, hbefore⟩ := ihs bb bv hfl
      obtain ⟨hilen, -⟩ := List.getElem?_eq_some.mp hi
      cases hva : get_variation a with
      | none =>
        simp only [bestStep, hva]
        refine ⟨fun h => absurd h (by simp), fun b v h => ?_⟩
        rw [Option.some_inj, Prod.mk.injEq] at h
        obtain ⟨hb, hv⟩ := h
        subst hb; subst hv
        refine ⟨hvb, fun s hs w hw => ?_, i, ?_, fun j hj s w hjs hw => ?_⟩
        · rcases List.mem_append.mp hs with h | h
          · exact hub s h w hw
          · rw [List.mem_singleton.mp h] at hw
            exact absurd hw (by rw [hva]; simp)
        · rw [getElem?_append_lt _ _ _ hilen]; exact hi
        · rw [getElem?_append_lt _ _ _ (lt_trans hj hilen)] at hjs
          exact hbefore j hj s w hjs hw
      | some v0 =>
        by_cases hcmp : bv < v0
        · simp only [bestStep, hva, if_pos hcmp]
          refine ⟨fun h => absurd h (by simp), fun b v h => ?_⟩
          rw [Option.some_inj, Prod.mk.injEq] at h
          obtain ⟨hb, hv⟩ := h
          subst hb; subst hv
          refine ⟨hva, fun s hs w hw => ?_, l.length, ?_, fun j hj s w hjs hw => ?_⟩
          · rcases List.mem_append.mp hs with h | h
            · exact le_of_lt (lt_of_le_of_lt (hub s h w hw) hcmp)
            · rw [List.mem_singleton.mp h] at hw
              rw [hva, Option.some_inj] at hw
              exact le_of_eq hw.symm
          · exact List.getElem?_concat_length l a
          · rw [getElem?_append_lt _ _ _ hj] at hjs
            exact lt_of_le_of_lt (hub s (List.getElem?_mem hjs) w hw) hcmp
        · simp only [bestStep, hva, if_neg hcmp]
          refine ⟨fun h => absurd h (by simp), fun b v h => ?_⟩
          rw [Option.some_inj, Prod.mk.injEq] at h
          obtain ⟨hb, hv⟩ := h
          subst hb; subst hv
          refine ⟨hvb, fun s hs w hw => ?_, i, ?_, fun j hj s w hjs hw => ?_⟩
          · rcases List.mem_append.mp hs with h | h
            · exact hub s h w hw
            · rw [List.mem_singleton.mp h] at hw
              rw [hva, Option.some_inj] at hw
              rw [← hw]
              exact le_of_not_lt hcmp
          · rw [getElem?_append_lt _ _ _ hilen]; exact hi
          · rw [getElem?_append_lt _ _ _ (lt_trans hj hilen)] at hjs
            exact hbefore j hj s w hjs hw

lemma worstFold_spec (l : List Stock) :
    (l.foldl worstStep none = none → ∀ s ∈ l, get_variation s = none) ∧
    (∀ b v, l.foldl worstStep none = some (b, v) →
      get_variation b = some v ∧
      (∀ s ∈ l, ∀ w, get_variation s = some w → v ≤ w) ∧
      ∃ i : ℕ, l[i]? = some b ∧
        ∀ j : ℕ, j < i → ∀ s w, l[j]? = some s → get_variation s = some w → v < w) := by
  induction l using List.reverseRecOn with
  | nil =>
    refine ⟨fun _ s hs => absurd hs (List.not_mem_nil s), fun b v h => ?_⟩
    simp at h
  | append_singleton l a ih =>
    obtain ⟨ihn, ihs⟩ := ih
    rw [List.foldl_append]
    simp only [List.foldl_cons, List.foldl_nil]
    cases hfl : l.foldl worstStep none with
    | none =>
      have hall := ihn hfl
      cases hva : get_variation a with
      | none =>
        simp only [worstStep, hva]
        refine ⟨fun _ s hs => ?_, fun b v h => ?_⟩
        · rcases List.mem_append.mp hs with h | h
          · exact hall s h
          · rw [List.mem_singleton.mp h]; exact hva
        · exact absurd h (by simp)
      | some v0 =>
        simp only [worstStep, hva]
        refine ⟨fun h => absurd h (by simp), fun b v h => ?_⟩
        rw [Option.some_inj, Prod.mk.injEq] at h
        obtain ⟨hb, hv⟩ := h
        subst hb; subst hv
        refine ⟨hva, fun s hs w hw => ?_, l.length, ?_, fun j hj s w hjs hw => ?_⟩
        · rcases List.mem_append.mp hs with h | h
          · exact absurd hw (by rw [hall s h]; simp)
          · rw [List.mem_singleton.mp h] at hw
            rw [hva] at hw
            rw [Option.some_inj] at hw
            exact le_of_eq hw
        · exact List.getElem?_concat_length l a
        · rw [getElem?_append_lt _ _ _ hj] at hjs
          exact absurd hw (by rw [hall s (List.getElem?_mem hjs)]; simp)
    | some pr =>
      obtain ⟨bb, bv⟩ := pr
      obtain ⟨hvb, hub, i, hi, hbefore⟩ := ihs bb bv hfl
      obtain ⟨hilen, -⟩ := List.getElem?_eq_some.mp hi
      cases hva : get_variation a with
      | none =>
        simp only [worstStep, hva]
        refine ⟨fun h => absurd h (by simp), fun b v h => ?_⟩
        rw [Option.some_inj, Prod.mk.injEq] at h
        obtain ⟨hb, hv⟩ := h
        subst hb; subst hv
        refine ⟨hvb, fun s hs w hw => ?_, i, ?_, fun j hj s w hjs hw => ?_⟩
        · rcases List.mem_append.mp hs with h | h
          · exact hub s h w hw
          · rw [List.mem_singleton.mp h] at hw
            exact absurd hw (by rw [hva]; simp)
        · rw [getElem?_append_lt _ _ _ hilen]; exact hi
        · rw [getElem?_append_lt _ _ _ (lt_trans hj hilen)] at hjs
          exact hbefore j hj s w hjs hw
      | some v0 =>
        by_cases hcmp : v0 < bv
        · simp only [worstStep, hva, if_pos hcmp]
          refine ⟨fun h => absurd h (by simp), fun b v h => ?_⟩
          rw [Option.some_inj, Prod.mk.injEq] at h
          obtain ⟨hb, hv⟩ := h
          subst hb; subst hv
          refine ⟨hva, fun s hs w hw => ?_, l.length, ?_, fun j hj s w hjs hw => ?_⟩
          · rcases List.mem_append.mp hs with h | h
            · exact le_of_lt (lt_of_lt_of_le hcmp (hub s h w hw))
            · rw [List.mem_singleton.mp h] at hw
              rw [hva, Option.some_inj] at hw
              exact le_of_eq hw
          · exact List.getElem?_concat_length l a
          · rw [getElem?_append_lt _ _ _ hj] at hjs
            exact lt_of_lt_of_le hcmp (hub s (List.getElem?_mem hjs) w hw)
        · simp only [worstStep, hva, if_neg hcmp]
          refine ⟨fun h => absurd h (by simp), fun b v h => ?_⟩
          rw [Option.some_inj, Prod.mk.injEq] at h
          obtain ⟨hb, hv⟩ := h
          subst hb; subst hv
          refine ⟨hvb, fun s hs w hw => ?_, i, ?_, fun j hj s w hjs hw => ?_⟩
          · rcases List.mem_append.mp hs with h | h
            · exact hub s h w hw
            · rw [List.mem_singleton.mp h] at hw
              rw [hva, Option.some_inj] at hw
              rw [← hw]
              exact le_of_not_lt hcmp
          · rw [getElem?_append_lt _ _ _ hilen]; exact hi
          · rw [getElem?_append_lt _ _ _ (lt_trans hj hilen)] at hjs
            exact hbefore j hj s w hjs hw

/-- C5: `get_best_performer` / `get_worst_performer` return the stock with
the maximum / minimum defined variation, ignoring stocks whose variation
is undefined; among tied stocks the earliest in insertion order wins
(every strictly earlier stock with a defined variation is strictly
worse / better); and both return `None` exactly on an empty portfolio or
when no stock has a defined variation. -/
theorem best_worst_performer_spec (p : Portfolio) :
    (get_best_performer p = none ↔ ∀ s ∈ p.stocks, get_variation s = none) ∧
    (get_worst_performer p = none ↔ ∀ s ∈ p.stocks, get_variation s = none) ∧
    (∀ b, get_best_performer p = some b →
      ∃ i : ℕ, ∃ v, p.stocks[i]? = some b ∧ get_variation b = some v ∧
        (∀ s ∈ p.stocks, ∀ w, get_variation s = some w → w ≤ v) ∧
        (∀ j : ℕ, j < i → ∀ s w, p.stocks[j]? = some s →
          get_variation s = some w → w < v)) ∧
    (∀ b, get_worst_performer p = some b →
      ∃ i : ℕ, ∃ v, p.stocks[i]? = some b ∧ get_variation b = some v ∧
        (∀ s ∈ p.stocks, ∀ w, get_variation s = some w → v ≤ w) ∧
        (∀ j : ℕ, j < i → ∀ s w, p.stocks[j]? = some s →
          get_variation s = some w → v < w)) := by
  obtain ⟨bn, bs⟩ := bestFold_spec p.stocks
  obtain ⟨wn, ws⟩ := worstFold_spec p.stocks
  refine ⟨?_, ?_, ?_, ?_⟩
  · by_cases he : p.stocks.isEmpty
    · have hnil : p.stocks = [] := List.isEmpty_iff.mp he
      rw [get_best_performer, if_pos he, hnil]
      simp
    · rw [get_best_performer, if_neg he]
      constructor
      · intro h
        cases hfl : p.stocks.foldl bestStep none with
        | none => exact bn hfl
        | some pr => rw [hfl] at h; simp at h
      · intro hall
        cases hfl : p.stocks.foldl bestStep none with
        | none => rfl
        | some pr =>
          obtain ⟨bb, bv⟩ := pr
          obtain ⟨hvb, -, i, hi, -⟩ := bs bb bv hfl
          exact absurd hvb (by rw [hall bb (List.getElem?_mem hi)]; simp)
  · by_cases he : p.stocks.isEmpty
    · have hnil : p.stocks = [] := List.isEmpty_iff.mp he
      rw [get_worst_performer, if_pos he, hnil]
      simp
    · rw [get_worst_performer, if_neg he]
      constructor
      · intro h
        cases hfl : p.stocks.foldl worstStep none with
        | none => exact wn hfl
        | some pr => rw [hfl] at h; simp at h
      · intro hall
        cases hfl : p.stocks.foldl worstStep none with
        | none => rfl
        | some pr =>
          obtain ⟨bb, bv⟩ := pr
          obtain ⟨hvb, -, i, hi, -⟩ := ws bb bv hfl
          exact absurd hvb (by rw [hall bb (List.getElem?_mem hi)]; simp)
  · intro b hb
    by_cases he : p.stocks.isEmpty
    · rw [get_best_performer, if_pos he] at hb
      exact absurd hb (by simp)
    · rw [get_best_performer, if_neg he] at hb
      cases hfl : p.stocks.foldl bestStep none with
      | none => rw [hfl] at hb; simp at hb
      | some pr =>
        obtain ⟨bb, bv⟩ := pr
        rw [hfl] at hb
        simp at hb
        subst hb
        obtain ⟨hvb, hub, i, hi, hbefore⟩ := bs bb bv hfl
        exact ⟨i, bv, hi, hvb, hub, hbefore⟩
  · intro b hb
    by_cases he : p.stocks.isEmpty
    · rw [get_worst_performer, if_pos he] at hb
      exact absurd hb (by simp)
    · rw [get_worst_performer, if_neg he] at hb
      cases hfl : p.stocks.foldl worstStep none with
      | none => rw [hfl] at hb; simp at hb
      | some pr =>
        obtain ⟨bb, bv⟩ := pr
        rw [hfl] at hb
        simp at hb
        subst hb
        obtain ⟨hvb, hub, i, hi, hbefore⟩ := ws bb bv hfl
        exact ⟨i, bv, hi, hvb, hub, hbefore⟩
